import Mathlib

/-!
Shallow embedding of the voyage-detection and dataset-update scripts
(`scripts/detect_voyages.py`, `scripts/update_underway.py`) together with
theorems settling the specification claims about them.

Modelling conventions:
* Python floats are modelled as exact rationals (`ℚ`); timestamps as `ℤ`
  (seconds); record identifiers as `String`.
* `detect_port` computes a haversine distance (transcendental, floating
  point) to each port.  The selection logic is embedded exactly; the
  distance to each of the 7 fixed ports is abstracted as a rational input
  function `dist : Port → ℚ`.
* The filesystem handled by `update_parquet` is a record of the three
  files the script touches (live parquet, `.bak` backup, `.tmp` staging);
  remote endpoints (release parquet, WFS) are oracle parameters; the
  possibility that the merge `COPY` raises is an injected boolean fault.
  `update_parquet` additionally returns the trace of file-system states
  at every mutation point so that "at every observable point" claims can
  be stated.
-/

/-- A port definition: `{"name": ..., "lat": ..., "lon": ..., "radius_km": ...}`.
The centre coordinates are stored in hundredths of a degree
(`-42.88 ↦ -4288`) so that they are exact integers; they are only carried
data here, since the haversine distance they feed is abstracted as the
`dist` argument of `detect_port`. -/
structure Port where
  name : String
  lat100 : ℤ
  lon100 : ℤ
  radius_km : ℚ
deriving DecidableEq

/-- The fixed `PORTS` table of `detect_voyages.py`. -/
def PORTS : List Port :=
  [ { name := "Hobart", lat100 := -4288, lon100 := 14733, radius_km := 15 },
    { name := "Burnie", lat100 := -4105, lon100 := 14591, radius_km := 8 },
    { name := "Macquarie Island", lat100 := -5450, lon100 := 15894, radius_km := 40 },
    { name := "Heard Island", lat100 := -5310, lon100 := 7351, radius_km := 50 },
    { name := "Casey", lat100 := -6628, lon100 := 11053, radius_km := 80 },
    { name := "Davis", lat100 := -6858, lon100 := 7797, radius_km := 80 },
    { name := "Mawson", lat100 := -6760, lon100 := 6287, radius_km := 80 } ]

/-- `MIN_DWELL_HOURS = 2`  (ignore brief port touches). -/
def MIN_DWELL_HOURS : ℚ := 2

/-- Extended comparison `dist < best_dist` where `best_dist` starts as
`float("inf")` (modelled by `none`). -/
def ltWithInf (dist : ℚ) : Option ℚ → Bool
  | none => true
  | some b => decide (dist < b)

/-- The loop body of `detect_port`: iterate over the ports paired with the
haversine distance from the query point to each, tracking `best_port` and
`best_dist`.  `best_port` is (re)assigned only when the current port is the
new running-nearest *and* its distance is within its own radius. -/
def detect_portGo : List (Port × ℚ) → Option String → Option ℚ → Option String
  | [], best_port, _ => best_port
  | (port, dist) :: rest, best_port, best_dist =>
    if ltWithInf dist best_dist then
      detect_portGo rest (if dist ≤ port.radius_km then some port.name else best_port)
        (some dist)
    else
      detect_portGo rest best_port best_dist

/-- `detect_port(lat, lon)`: iterate over `PORTS`, computing the distance
from the query point to each port.  `dist port` abstracts
`haversine_km(lat, lon, port["lat"], port["lon"])` (a transcendental,
floating-point quantity) as an exact rational. -/
def detect_port (dist : Port → ℚ) : Option String :=
  detect_portGo (PORTS.map fun port => (port, dist port)) none none

/-- One classified position record (row of `load_data`'s output):
`{gml_id, datetime, lat, lon, port}`. -/
structure URecord where
  gml_id : String
  datetime : ℤ
  lat : ℚ
  lon : ℚ
  port : Option String
deriving DecidableEq

/-- Python truthiness of the `port` field (`if port:`): `None` and the empty
string are falsy. -/
def pyTruthy : Option String → Bool
  | none => false
  | some s => !(s == "")

/-- A port visit as built by `group_port_visits`.  The `dwell_hours` key is
added by the dwell filter; before that the field holds `0` (the Python dict
simply lacks the key until then). -/
structure Visit where
  port : String
  arrive : ℤ
  depart : ℤ
  arrive_gml_id : String
  depart_gml_id : String
  n_points : ℕ
  dwell_hours : ℚ
deriving DecidableEq

/-- The visit dict appended by `group_port_visits` when a run ends. -/
def mkVisit (current_port : String) (current_records : List URecord) : Visit :=
  { port := current_port
    arrive := ((current_records.head?).map URecord.datetime).getD 0
    depart := ((current_records.getLast?).map URecord.datetime).getD 0
    arrive_gml_id := ((current_records.head?).map URecord.gml_id).getD ""
    depart_gml_id := ((current_records.getLast?).map URecord.gml_id).getD ""
    n_points := current_records.length
    dwell_hours := 0 }

/-- Emission of the pending run: `if current_port is not None and
current_records: visits.append(...)`. -/
def flushRun (current_port : Option String) (current_records : List URecord)
    (visits : List Visit) : List Visit :=
  match current_port with
  | some cp => if current_records.isEmpty then visits else visits ++ [mkVisit cp current_records]
  | none => visits

/-- The scan loop of `group_port_visits` (before the dwell filter). -/
def group_port_visitsGo :
    List URecord → Option String → List URecord → List Visit → List Visit
  | [], current_port, current_records, visits =>
      flushRun current_port current_records visits
  | rec :: rest, current_port, current_records, visits =>
      if rec.port ≠ current_port then
        group_port_visitsGo rest rec.port
          (if pyTruthy rec.port then [rec] else [])
          (flushRun current_port current_records visits)
      else
        group_port_visitsGo rest current_port
          (if pyTruthy rec.port then current_records ++ [rec] else current_records)
          visits

/-- The visits produced by the scan of `group_port_visits`, before the
dwell-time filter is applied. -/
def scanVisits (records : List URecord) : List Visit :=
  group_port_visitsGo records none [] []

/-- Dwell time in hours: `(v["depart"] - v["arrive"]).total_seconds() / 3600`. -/
def dwellOf (v : Visit) : ℚ := ((v.depart - v.arrive : ℤ) : ℚ) / 3600

/-- Floor of a rational, written so that it evaluates by kernel reduction. -/
def ratFloor (x : ℚ) : ℤ := x.num / (x.den : ℤ)

/-- Python `round` to an integer: round half to even. -/
def rne (x : ℚ) : ℤ :=
  if x - ratFloor x < 1/2 then ratFloor x
  else if 1/2 < x - ratFloor x then ratFloor x + 1
  else if ratFloor x % 2 = 0 then ratFloor x else ratFloor x + 1

/-- Python `round(x, 1)`: round to one decimal place, half to even. -/
def round1 (x : ℚ) : ℚ := (rne (10 * x) : ℚ) / 10

/-- The dwell-time filter of `group_port_visits`: keep visits with
`dwell >= MIN_DWELL_HOURS`, annotating them with `round(dwell, 1)`. -/
def dwellFilter : List Visit → List Visit
  | [] => []
  | v :: rest =>
    if MIN_DWELL_HOURS ≤ dwellOf v then
      { v with dwell_hours := round1 (dwellOf v) } :: dwellFilter rest
    else
      dwellFilter rest

/-- `group_port_visits(records)`: scan into visits, then dwell-filter. -/
def group_port_visits (records : List URecord) : List Visit :=
  dwellFilter (scanVisits records)

/-- A voyage as built by `group_voyages`.  The script emits
`id = f"V{voyage_num} {strftime(first arrive)}"`; the counter `voyage_num`
is kept here as the field `num` (the year-month rendering of the arrival
instant carries no information beyond `start`). -/
structure Voyage where
  num : ℕ
  note : String
  start : ℤ
  end_ : ℤ
  stops : List Visit
deriving DecidableEq

/-- The voyage dict appended by `group_voyages` when a buffer is closed. -/
def mkVoyage (voyage_num : ℕ) (current_stops : List Visit) : Voyage :=
  { num := voyage_num
    note := ""
    start := ((current_stops.head?).map Visit.arrive).getD 0
    end_ := ((current_stops.getLast?).map Visit.depart).getD 0
    stops := current_stops }

/-- `is_new_voyage`: the current visit is at Hobart, there is a previous
visit (`i > 0`), and the previous visit's port is not Hobart. -/
def isNewVoyage (port : String) (prevPort : Option String) : Bool :=
  (port == "Hobart") &&
    (match prevPort with
     | none => false
     | some p => !(p == "Hobart"))

/-- The loop of `group_voyages`; `prevPort` is `visits[i-1]["port"]`
(`none` at `i = 0`). -/
def group_voyagesGo :
    List Visit → Option String → List Visit → ℕ → List Voyage → List Voyage
  | [], _, current_stops, voyage_num, voyages =>
      if current_stops.isEmpty then voyages
      else voyages ++ [mkVoyage (voyage_num + 1) current_stops]
  | visit :: rest, prevPort, current_stops, voyage_num, voyages =>
      if isNewVoyage visit.port prevPort && !current_stops.isEmpty then
        group_voyagesGo rest (some visit.port) [visit] (voyage_num + 1)
          (voyages ++ [mkVoyage (voyage_num + 1) current_stops])
      else
        group_voyagesGo rest (some visit.port) (current_stops ++ [visit]) voyage_num voyages

/-- `group_voyages(visits)`: split the visit sequence on arrivals at Hobart
that follow a non-Hobart visit. -/
def group_voyages (visits : List Visit) : List Voyage :=
  group_voyagesGo visits none [] 0 []

/-- The segmentation of the visit list induced by `group_voyages`, as bare
stop lists: `buf` is the open buffer, the first argument the remaining
visits, the `String` the previous visit's port. -/
def chunksGo : List Visit → String → List Visit → List (List Visit)
  | [], _, buf => [buf]
  | v :: rest, prevPort, buf =>
    if isNewVoyage v.port (some prevPort) then
      buf :: chunksGo rest v.port [v]
    else
      chunksGo rest v.port (buf ++ [v])

/-- The chunks of a whole visit sequence (empty input gives no chunks;
otherwise the scan starts with the first visit in the buffer). -/
def chunks : List Visit → List (List Visit)
  | [] => []
  | v :: rest => chunksGo rest v.port [v]

/-- Start indices (into the concatenation) of a list of chunks. -/
def chunkStartsAux : List (List Visit) → ℕ → List ℕ
  | [], _ => []
  | c :: cs, a => a :: chunkStartsAux cs (a + c.length)

/-- The index, in the original visit sequence, of the first stop of each
emitted voyage. -/
def voyageStarts (voyages : List Voyage) : List ℕ :=
  chunkStartsAux (voyages.map Voyage.stops) 0

/-- The voyage-boundary indices of a visit sequence, exactly as the claim
states them: indices `i > 0` with `visits[i]` at Hobart and `visits[i-1]`
not at Hobart. -/
def boundaryIndices (vs : List Visit) : List ℕ :=
  (List.range vs.length).filter (fun i =>
    decide (0 < i) &&
      (((vs.get? i).map Visit.port) == some "Hobart") &&
      !(((vs.get? (i - 1)).map Visit.port) == some "Hobart"))

/-- Position-annotated boundary scan used to relate `chunksGo` to
`boundaryIndices`. -/
def bIdxGo : List Visit → String → ℕ → List ℕ
  | [], _, _ => []
  | v :: rest, prevPort, pos =>
    (if isNewVoyage v.port (some prevPort) then [pos] else []) ++
      bIdxGo rest v.port (pos + 1)

/-! ## Dataset synchronizer (`update_underway.py`) -/

/-- Contents of one parquet artifact: its rows' `datetime` values. -/
abbrev Data := List ℤ

/-- The files `update_parquet` touches: `nuyina_underway.parquet` (live),
`…parquet.bak` (backup), `…parquet.tmp` (staging); `none` = file absent. -/
structure FS where
  live : Option Data
  backup : Option Data
  temp : Option Data
deriving DecidableEq

/-- `download_existing()`: read the release parquet (`none` = unreachable /
raises); if it has rows, overwrite the live file with it and succeed. -/
def download_existing (release : Option Data) (fs : FS) : Bool × FS :=
  match release with
  | none => (false, fs)
  | some r => if 0 < r.length then (true, { fs with live := some r }) else (false, fs)

/-- `get_max_datetime()`: `MAX(datetime)` of the live file (`none` when the
file is absent or empty). -/
def get_max_datetime (fs : FS) : Option ℤ :=
  match fs.live with
  | none => none
  | some d => d.max?

/-- `fetch_from_wfs(since)`: rows of the remote WFS table (`none` = fetch
error, which the script turns into `(0, None)`), filtered to
`datetime > since` when a cursor is given. -/
def fetch_from_wfs (wfs : Option Data) (since : Option ℤ) : ℕ × Option Data :=
  match wfs with
  | none => (0, none)
  | some w =>
    match since with
    | some s => ((w.filter (fun t => decide (s < t))).length,
                 some (w.filter (fun t => decide (s < t))))
    | none => (w.length, some w)

/-- The unconditional `finally` block: remove `.tmp` and `.bak` if present. -/
def cleanupFS (fs : FS) : FS := { fs with temp := none, backup := none }

/-- The except-handler: `if Path(backup_file).exists():
shutil.move(backup_file, OUTPUT_FILE)`. -/
def restore_backup (fs : FS) : FS :=
  match fs.backup with
  | some b => { fs with live := some b, backup := none }
  | none => fs

/-- The merge block of `update_parquet` (backup, union into staging,
validate, atomic replace / rollback).  `mergeRaises` injects a failure of
the merge `COPY` itself (raised before the staging file is written). -/
def merge_step (mergeRaises : Bool) (newRecs : Data) (fs : FS) (trace : List FS) :
    Bool × FS × List FS :=
  let fs1 : FS := { fs with backup := fs.live }
  if mergeRaises then
    let fs2 := restore_backup fs1
    (false, fs2, (trace ++ [fs1]) ++ [fs2])
  else
    let merged := (fs1.live.getD []) ++ newRecs
    let fs2 : FS := { fs1 with temp := some merged }
    if 0 < merged.length then
      let fs3 : FS := { fs2 with live := some merged, temp := none }
      let fs4 : FS := { fs3 with backup := none }
      (true, fs4, ((trace ++ [fs1]) ++ [fs2]) ++ [fs3, fs4])
    else
      let fs3 := restore_backup fs2
      (false, fs3, ((trace ++ [fs1]) ++ [fs2]) ++ [fs3])

/-- The full-fetch fallback (`if not has_existing:`). -/
def full_fetch (wfs : Option Data) (fs : FS) (trace : List FS) :
    Bool × FS × List FS :=
  match fetch_from_wfs wfs none with
  | (count, df) =>
    if 0 < count then
      let fs1 : FS := { fs with live := df }
      (true, fs1, trace ++ [fs1])
    else
      (false, fs, trace)

/-- `update_parquet()`.  Returns the success flag, the final file-system
state, and the trace of file-system states at every observable point
(initial state first, post-`finally` state last). -/
def update_parquet (release wfs : Option Data) (mergeRaises : Bool) (fs0 : FS) :
    Bool × FS × List FS :=
  let result :=
    match download_existing release fs0 with
    | (has_existing, fs1) =>
      if has_existing then
        match get_max_datetime fs1 with
        | some max_dt =>
          match fetch_from_wfs wfs (some max_dt) with
          | (count, new_df) =>
            if count = 0 then (true, fs1, [fs0, fs1])
            else merge_step mergeRaises (new_df.getD []) fs1 [fs0, fs1]
        | none => full_fetch wfs fs1 [fs0, fs1]
      else full_fetch wfs fs1 [fs0, fs1]
  match result with
  | (ok, fs, trace) => (ok, cleanupFS fs, trace ++ [cleanupFS fs])

/-! ## Geo-proximity classifier: theorems -/

theorem detect_portGo_all_outside (l : List (Port × ℚ)) (bp : Option String) (bd : Option ℚ)
    (h : ∀ pd ∈ l, pd.1.radius_km < pd.2) :
    detect_portGo l bp bd = bp := by
  induction l generalizing bp bd with
  | nil => rfl
  | cons pd rest ih =>
    obtain ⟨port, dist⟩ := pd
    have hpd : port.radius_km < dist := h _ (List.mem_cons_self _ _)
    have hrest : ∀ pd ∈ rest, pd.1.radius_km < pd.2 :=
      fun x hx => h x (List.mem_cons_of_mem _ hx)
    simp only [detect_portGo]
    split
    · rw [if_neg (not_le.mpr hpd)]
      exact ih _ _ hrest
    · exact ih _ _ hrest

theorem detect_portGo_no_update (l : List (Port × ℚ)) (bp : Option String) (b : ℚ)
    (h : ∀ pd ∈ l, ¬ pd.2 < b) :
    detect_portGo l bp (some b) = bp := by
  induction l generalizing bp with
  | nil => rfl
  | cons pd rest ih =>
    obtain ⟨port, dist⟩ := pd
    have hpd : ¬ dist < b := h _ (List.mem_cons_self _ _)
    simp only [detect_portGo, ltWithInf]
    rw [if_neg (by simpa using hpd)]
    exact ih _ fun x hx => h x (List.mem_cons_of_mem _ hx)

theorem detect_portGo_nearest (p : Port) (dp : ℚ) (hin : dp ≤ p.radius_km) :
    ∀ (pre post : List (Port × ℚ)) (bp : Option String) (bd : Option ℚ),
      (∀ pd ∈ pre, pd.1.radius_km < pd.2 ∧ dp < pd.2) →
      (∀ pd ∈ post, ¬ pd.2 < dp) →
      (bd = none ∨ ∃ b, bd = some b ∧ dp < b) →
      detect_portGo (pre ++ (p, dp) :: post) bp bd = some p.name := by
  intro pre
  induction pre with
  | nil =>
    intro post bp bd _ hpost hbd
    have hcond : ltWithInf dp bd = true := by
      rcases hbd with h | ⟨b, rfl, hb⟩
      · subst h; rfl
      · simpa [ltWithInf] using hb
    simp only [List.nil_append, detect_portGo]
    rw [if_pos hcond, if_pos hin]
    exact detect_portGo_no_update post _ dp hpost
  | cons qd rest ih =>
    intro post bp bd hpre hpost hbd
    obtain ⟨hq, hdq⟩ := hpre qd (List.mem_cons_self _ _)
    have hpre' : ∀ pd ∈ rest, pd.1.radius_km < pd.2 ∧ dp < pd.2 :=
      fun x hx => hpre x (List.mem_cons_of_mem _ hx)
    simp only [List.cons_append, detect_portGo]
    split
    · rw [if_neg (not_le.mpr hq)]
      exact ih post bp _ hpre' hpost (Or.inr ⟨qd.2, rfl, hdq⟩)
    · exact ih post bp bd hpre' hpost hbd

theorem radius_le_80 : ∀ p ∈ PORTS, p.radius_km ≤ 80 := by decide

theorem ports_nodup : PORTS.Nodup := by decide

/-- If some port contains the query point (and no two ports are
simultaneously within 80 km, the common radius bound), `detect_port`
returns that port, and it is the strict nearest. -/
theorem detect_port_of_within (dist : Port → ℚ)
    (hsep : ∀ p ∈ PORTS, ∀ q ∈ PORTS, p ≠ q → ¬(dist p ≤ 80 ∧ dist q ≤ 80))
    (p : Port) (hp : p ∈ PORTS) (hin : dist p ≤ p.radius_km) :
    detect_port dist = some p.name ∧ ∀ q ∈ PORTS, q ≠ p → dist p < dist q := by
  have hfar : ∀ q ∈ PORTS, q ≠ p → q.radius_km < dist q ∧ dist p < dist q := by
    intro q hq hne
    have h80p : dist p ≤ 80 := le_trans hin (radius_le_80 p hp)
    have hq80 : ¬ dist q ≤ 80 := by
      intro hle
      exact hsep q hq p hp hne ⟨hle, h80p⟩
    have hqgt : (80 : ℚ) < dist q := not_le.mp hq80
    exact ⟨lt_of_le_of_lt (radius_le_80 q hq) hqgt, lt_of_le_of_lt h80p hqgt⟩
  obtain ⟨pre, post, hsplit⟩ := List.append_of_mem hp
  have hnd := ports_nodup
  rw [hsplit] at hnd
  have hnotpre : p ∉ pre := by
    intro hmem
    exact (List.nodup_append.mp hnd).2.2 hmem (List.mem_cons_self _ _)
  have hnotpost : p ∉ post := by
    have := (List.nodup_append.mp hnd).2.1
    exact fun hmem => (List.nodup_cons.mp this).1 hmem
  constructor
  · show detect_portGo (PORTS.map fun port => (port, dist port)) none none = some p.name
    rw [hsplit, List.map_append, List.map_cons]
    refine detect_portGo_nearest p (dist p) hin _ _ none none ?_ ?_ (Or.inl rfl)
    · intro pd hpd
      obtain ⟨q, hqmem, rfl⟩ := List.mem_map.mp hpd
      have hq : q ∈ PORTS := by rw [hsplit]; exact List.mem_append_left _ hqmem
      have hne : q ≠ p := fun h => hnotpre (h ▸ hqmem)
      exact hfar q hq hne
    · intro pd hpd
      obtain ⟨q, hqmem, rfl⟩ := List.mem_map.mp hpd
      have hq : q ∈ PORTS := by
        rw [hsplit]; exact List.mem_append_right _ (List.mem_cons_of_mem _ hqmem)
      have hne : q ≠ p := fun h => hnotpost (h ▸ hqmem)
      exact not_lt.mpr (le_of_lt (hfar q hq hne).2)
  · intro q hq hne
    exact (hfar q hq hne).2

/-- If no port contains the query point, `detect_port` returns `none`. -/
theorem detect_port_of_all_outside (dist : Port → ℚ)
    (h : ∀ p ∈ PORTS, p.radius_km < dist p) :
    detect_port dist = none := by
  show detect_portGo (PORTS.map fun port => (port, dist port)) none none = none
  refine detect_portGo_all_outside _ none none ?_
  intro pd hpd
  obtain ⟨q, hqmem, rfl⟩ := List.mem_map.mp hpd
  exact h q hqmem

/-- C1: for every query point, `detect_port` returns the name of the
globally (strictly) nearest port exactly when that port's distance is
within that port's own `radius_km`, and returns `None` otherwise.  The
hypothesis `hsep` states that no two distinct ports are simultaneously
within 80 km (the largest radius in the table) of the query point; it
holds for every real coordinate because the port centres are pairwise
more than 160 km apart (the closest pair, Hobart and Burnie, is about
235 km), so by the triangle inequality for great-circle distance two
ports within 80 km each would force two centres within 160 km. -/
theorem detect_port_nearest_characterization (dist : Port → ℚ)
    (hsep : ∀ p ∈ PORTS, ∀ q ∈ PORTS, p ≠ q → ¬(dist p ≤ 80 ∧ dist q ≤ 80)) :
    (∀ n : String, detect_port dist = some n ↔
      ∃ p ∈ PORTS, p.name = n ∧ dist p ≤ p.radius_km ∧
        ∀ q ∈ PORTS, q ≠ p → dist p < dist q) ∧
    (detect_port dist = none ↔ ∀ p ∈ PORTS, p.radius_km < dist p) := by
  constructor
  · intro n
    constructor
    · intro hsome
      by_cases hall : ∀ p ∈ PORTS, p.radius_km < dist p
      · rw [detect_port_of_all_outside dist hall] at hsome
        exact absurd hsome (by simp)
      · push_neg at hall
        obtain ⟨p, hp, hin⟩ := hall
        obtain ⟨heq, hnear⟩ := detect_port_of_within dist hsep p hp hin
        rw [heq] at hsome
        exact ⟨p, hp, by simpa using hsome, hin, hnear⟩
    · rintro ⟨p, hp, rfl, hin, -⟩
      exact (detect_port_of_within dist hsep p hp hin).1
  · constructor
    · intro hnone p hp
      by_contra hin
      have := (detect_port_of_within dist hsep p hp (not_lt.mp hin)).1
      rw [hnone] at this
      exact absurd this (by simp)
    · exact detect_port_of_all_outside dist

/-- Distance vector of a query point 10 km from Hobart and far from every
other port. -/
def wDist : Port → ℚ := fun p => if p.name = "Hobart" then 10 else 1000

/-- Witness for C1 at a concrete input: the point is inside Hobart's
radius, and `detect_port` returns Hobart. -/
theorem detect_port_nearest_characterization_applied :
    detect_port wDist = some "Hobart" := by
  refine ((detect_port_nearest_characterization wDist (by decide)).1 "Hobart").mpr ?_
  refine ⟨{ name := "Hobart", lat100 := -4288, lon100 := 14733, radius_km := 15 },
    by decide, rfl, by decide, ?_⟩
  intro q hq hne
  fin_cases hq <;> simp_all [wDist] <;> decide

/-! ## Voyage segmenter: theorems -/

theorem chunksGo_flatten :
    ∀ (rest : List Visit) (prevPort : String) (buf : List Visit),
      (chunksGo rest prevPort buf).flatten = buf ++ rest := by
  intro rest
  induction rest with
  | nil => intro prevPort buf; simp [chunksGo]
  | cons v rest ih =>
    intro prevPort buf
    simp only [chunksGo]
    split
    · simp [ih]
    · simp [ih]

theorem group_voyagesGo_stops :
    ∀ (rest : List Visit) (prevPort : String) (cs : List Visit) (num : ℕ)
      (acc : List Voyage), cs ≠ [] →
      (group_voyagesGo rest (some prevPort) cs num acc).map Voyage.stops =
        acc.map Voyage.stops ++ chunksGo rest prevPort cs := by
  intro rest
  induction rest with
  | nil =>
    intro prevPort cs num acc hcs
    simp [group_voyagesGo, chunksGo, List.isEmpty_iff, hcs, mkVoyage]
  | cons v rest ih =>
    intro prevPort cs num acc hcs
    simp only [group_voyagesGo, chunksGo]
    cases hnew : isNewVoyage v.port (some prevPort) with
    | false => simpa [hnew] using ih v.port (cs ++ [v]) num acc (by simp)
    | true =>
      have hempty : cs.isEmpty = false := by simpa [List.isEmpty_iff] using hcs
      have hih := ih v.port [v] (num + 1) (acc ++ [mkVoyage (num + 1) cs]) (by simp)
      simp only [mkVoyage] at hih
      simp [hempty, hih, mkVoyage]

/-- The stop lists of the emitted voyages are exactly the chunks of the
input visit sequence. -/
theorem group_voyages_stops (vs : List Visit) :
    (group_voyages vs).map Voyage.stops = chunks vs := by
  cases vs with
  | nil => rfl
  | cons v rest =>
    show (group_voyagesGo (v :: rest) none [] 0 []).map Voyage.stops = chunksGo rest v.port [v]
    simp only [group_voyagesGo, isNewVoyage, List.isEmpty_nil]
    rw [if_neg (by simp)]
    exact group_voyagesGo_stops rest v.port [v] 0 [] (by simp)

/-- C2: the voyage segmenter partitions the visit sequence: concatenating
the stops of all emitted voyages, in emission order, reproduces the input
visit sequence exactly. -/
theorem group_voyages_partition (vs : List Visit) :
    ((group_voyages vs).map Voyage.stops).flatten = vs := by
  rw [group_voyages_stops]
  cases vs with
  | nil => rfl
  | cons v rest => exact chunksGo_flatten rest v.port [v]

theorem chunkStartsAux_chunksGo :
    ∀ (rest : List Visit) (prevPort : String) (buf : List Visit) (a : ℕ),
      chunkStartsAux (chunksGo rest prevPort buf) a =
        a :: bIdxGo rest prevPort (a + buf.length) := by
  intro rest
  induction rest with
  | nil => intro prevPort buf a; rfl
  | cons v rest ih =>
    intro prevPort buf a
    simp only [chunksGo, bIdxGo]
    cases hnew : isNewVoyage v.port (some prevPort) with
    | false =>
      rw [if_neg (by simp [hnew]), if_neg (by simp [hnew])]
      rw [ih v.port (buf ++ [v]) a]
      simp [Nat.add_assoc]
    | true =>
      rw [if_pos (by simp [hnew]), if_pos (by simp [hnew])]
      simp only [chunkStartsAux]
      rw [ih v.port [v] (a + buf.length)]
      simp

theorem bIdxGo_shift :
    ∀ (tl : List Visit) (p : String) (a : ℕ),
      bIdxGo tl p (a + 1) = (bIdxGo tl p a).map (· + 1) := by
  intro tl
  induction tl with
  | nil => intro p a; rfl
  | cons v rest ih =>
    intro p a
    simp only [bIdxGo]
    cases hnew : isNewVoyage v.port (some p) with
    | false => simp [ih v.port (a + 1)]
    | true => simp [ih v.port (a + 1)]

theorem filter_range_succ (p : ℕ → Bool) (n : ℕ) :
    (List.range (n + 1)).filter p =
      (if p 0 then [0] else []) ++ ((List.range n).filter (fun j => p (j + 1))).map (· + 1) := by
  rw [List.range_succ_eq_map, List.filter_cons, List.filter_map]
  cases hp : p 0 <;>
    simp only [hp, Bool.false_eq_true, if_false, if_true, List.nil_append,
      List.singleton_append] <;>
    rfl

theorem boundaryIndices_cons_cons (u v : Visit) (tl : List Visit) :
    boundaryIndices (u :: v :: tl) =
      (if isNewVoyage v.port (some u.port) then [1] else []) ++
        (boundaryIndices (v :: tl)).map (· + 1) := by
  unfold boundaryIndices
  simp only [List.length_cons]
  rw [filter_range_succ, filter_range_succ, filter_range_succ]
  have hfc :
      (List.range tl.length).filter (fun j =>
        decide (0 < j + 1 + 1) &&
          (Option.map Visit.port ((u :: v :: tl).get? (j + 1 + 1)) == some "Hobart") &&
          !(Option.map Visit.port ((u :: v :: tl).get? (j + 1 + 1 - 1)) == some "Hobart")) =
      (List.range tl.length).filter (fun j =>
        decide (0 < j + 1) &&
          (Option.map Visit.port ((v :: tl).get? (j + 1)) == some "Hobart") &&
          !(Option.map Visit.port ((v :: tl).get? (j + 1 - 1)) == some "Hobart")) := by
    apply List.filter_congr
    intro j _
    simp [List.get?]
  rw [hfc]
  cases hnew : isNewVoyage v.port (some u.port) with
  | false =>
    have h1 : (decide (0 < 1) &&
        (Option.map Visit.port ((u :: v :: tl).get? 1) == some "Hobart") &&
        !(Option.map Visit.port ((u :: v :: tl).get? (1 - 1)) == some "Hobart")) = false := by
      simpa [isNewVoyage] using hnew
    simp only [isNewVoyage] at hnew
    simp [h1, hnew]
  | true =>
    have h1 : (decide (0 < 1) &&
        (Option.map Visit.port ((u :: v :: tl).get? 1) == some "Hobart") &&
        !(Option.map Visit.port ((u :: v :: tl).get? (1 - 1)) == some "Hobart")) = true := by
      simpa [isNewVoyage] using hnew
    simp only [isNewVoyage] at hnew
    simp [h1, hnew]

theorem bIdxGo_eq_boundaryIndices :
    ∀ (tl : List Visit) (u : Visit), bIdxGo tl u.port 1 = boundaryIndices (u :: tl) := by
  intro tl
  induction tl with
  | nil => intro u; rfl
  | cons v tl ih =>
    intro u
    rw [boundaryIndices_cons_cons]
    simp only [bIdxGo]
    rw [bIdxGo_shift tl v.port 1, ih v]

theorem chunkStartsAux_length :
    ∀ (l : List (List Visit)) (a : ℕ), (chunkStartsAux l a).length = l.length := by
  intro l
  induction l with
  | nil => intro a; rfl
  | cons c cs ih => intro a; simp [chunkStartsAux, ih]

/-- C7: the voyage segmenter closes the running buffer exactly at the
indices `i > 0` where visit `i` is at Hobart and visit `i-1` is not (each
emitted voyage starts at index `0` or at such a boundary); the whole input
is partitioned, and when no boundary exists everything forms one voyage.
The final buffer is always emitted (its stops are the tail of the
partition), even if it is a single visit or does not end at Hobart. -/
theorem group_voyages_boundaries (vs : List Visit) (hne : vs ≠ []) :
    voyageStarts (group_voyages vs) = 0 :: boundaryIndices vs ∧
    ((group_voyages vs).map Voyage.stops).flatten = vs ∧
    (boundaryIndices vs = [] → (group_voyages vs).length = 1) := by
  obtain ⟨v, tl, rfl⟩ := List.exists_cons_of_ne_nil hne
  have hstops : (group_voyages (v :: tl)).map Voyage.stops = chunksGo tl v.port [v] :=
    group_voyages_stops _
  have hstarts : voyageStarts (group_voyages (v :: tl)) = 0 :: boundaryIndices (v :: tl) := by
    unfold voyageStarts
    rw [hstops, chunkStartsAux_chunksGo]
    simpa using bIdxGo_eq_boundaryIndices tl v
  refine ⟨hstarts, ?_, ?_⟩
  · rw [hstops]
    exact chunksGo_flatten tl v.port [v]
  · intro hb
    have hlen : (voyageStarts (group_voyages (v :: tl))).length =
        (group_voyages (v :: tl)).length := by
      unfold voyageStarts
      rw [chunkStartsAux_length, List.length_map]
    rw [hstarts, hb] at hlen
    simpa using hlen.symm

theorem range'_snoc (num : ℕ) :
    List.range' 1 num ++ [num + 1] = List.range' 1 (num + 1) := by
  have h := @List.range'_concat 1 1 num
  simp only [one_mul] at h
  rw [h, Nat.add_comm]

theorem group_voyagesGo_nums :
    ∀ (rest : List Visit) (prevPort : Option String) (cs : List Visit) (num : ℕ)
      (acc : List Voyage),
      acc.map Voyage.num = List.range' 1 num →
      (group_voyagesGo rest prevPort cs num acc).map Voyage.num =
        List.range' 1 (group_voyagesGo rest prevPort cs num acc).length := by
  intro rest
  induction rest with
  | nil =>
    intro prevPort cs num acc hacc
    have hlen : acc.length = num := by
      have h := congrArg List.length hacc
      simpa using h
    simp only [group_voyagesGo]
    cases hcs : cs.isEmpty
    · simp only [Bool.false_eq_true, if_false]
      rw [List.map_append, hacc]
      simp only [List.map_cons, List.map_nil, mkVoyage]
      rw [range'_snoc num]
      simp [hlen]
    · simpa [hacc] using hlen.symm
  | cons visit rest ih =>
    intro prevPort cs num acc hacc
    simp only [group_voyagesGo]
    split
    · apply ih
      rw [List.map_append, hacc]
      simp only [List.map_cons, List.map_nil, mkVoyage]
      exact range'_snoc num
    · exact ih _ _ _ _ hacc

/-- The derived-field invariant of an emitted voyage: non-empty stops,
`start` = first stop's arrival, `end` = last stop's departure. -/
def voyageDerived (v : Voyage) : Prop :=
  v.stops ≠ [] ∧
  v.start = ((v.stops.head?).map Visit.arrive).getD 0 ∧
  v.end_ = ((v.stops.getLast?).map Visit.depart).getD 0

theorem mkVoyage_derived (n : ℕ) (cs : List Visit) (h : cs ≠ []) :
    voyageDerived (mkVoyage n cs) := ⟨h, rfl, rfl⟩

theorem group_voyagesGo_inv :
    ∀ (rest : List Visit) (prevPort : Option String) (cs : List Visit) (num : ℕ)
      (acc : List Voyage),
      (∀ v ∈ acc, voyageDerived v) →
      ∀ v ∈ group_voyagesGo rest prevPort cs num acc, voyageDerived v := by
  intro rest
  induction rest with
  | nil =>
    intro prevPort cs num acc hacc
    simp only [group_voyagesGo]
    cases hcs : cs.isEmpty
    · simp only [Bool.false_eq_true, if_false]
      intro v hv
      rcases List.mem_append.mp hv with h | h
      · exact hacc v h
      · have : v = mkVoyage (num + 1) cs := by simpa using h
        subst this
        exact mkVoyage_derived _ _ (by simpa [List.isEmpty_iff] using hcs)
    · simpa using hacc
  | cons visit rest ih =>
    intro prevPort cs num acc hacc
    simp only [group_voyagesGo]
    split
    case isTrue hguard =>
      apply ih
      intro v hv
      rcases List.mem_append.mp hv with h | h
      · exact hacc v h
      · have hv2 : v = mkVoyage (num + 1) cs := by simpa using h
        subst hv2
        refine mkVoyage_derived _ _ ?_
        have h2 := (Bool.and_eq_true _ _).mp hguard |>.2
        simpa [List.isEmpty_iff] using h2
    case isFalse => exact ih _ _ _ _ hacc

/-- C9: every voyage emitted by the segmenter has non-empty stops with
`start`/`end` derived from its first/last stop, and the voyage numbering
is `1, 2, 3, ...` — 1-based and strictly increasing in emission order. -/
theorem group_voyages_invariants (vs : List Visit) :
    (∀ v ∈ group_voyages vs, voyageDerived v) ∧
    (group_voyages vs).map Voyage.num = List.range' 1 (group_voyages vs).length := by
  constructor
  · exact group_voyagesGo_inv vs none [] 0 [] (by simp)
  · exact group_voyagesGo_nums vs none [] 0 [] (by simp)

/-- A concrete Hobart visit used by the witnesses. -/
def wVisitH : Visit :=
  { port := "Hobart", arrive := 0, depart := 7200, arrive_gml_id := "a",
    depart_gml_id := "b", n_points := 2, dwell_hours := 0 }

/-- A concrete Casey visit used by the witnesses. -/
def wVisitC : Visit :=
  { port := "Casey", arrive := 10000, depart := 30000, arrive_gml_id := "c",
    depart_gml_id := "d", n_points := 3, dwell_hours := 0 }

/-- A second concrete Hobart visit used by the witnesses. -/
def wVisitH2 : Visit :=
  { port := "Hobart", arrive := 40000, depart := 50000, arrive_gml_id := "e",
    depart_gml_id := "f", n_points := 4, dwell_hours := 0 }

/-- Witness for C9 at a concrete input. -/
theorem group_voyages_invariants_applied :
    (mkVoyage 1 [wVisitH]).stops ≠ [] :=
  ((group_voyages_invariants [wVisitH]).1 (mkVoyage 1 [wVisitH]) (by decide)).1

/-- Witness for C7 at a concrete input: visits Hobart, Casey, Hobart split
at index 2 (the Hobart arrival after Casey). -/
theorem group_voyages_boundaries_applied :
    voyageStarts (group_voyages [wVisitH, wVisitC, wVisitH2]) = [0, 2] := by
  rw [(group_voyages_boundaries [wVisitH, wVisitC, wVisitH2] (by decide)).1]
  decide

/-! ## Visit aggregator: theorems -/

theorem ratFloor_eq (x : ℚ) : ratFloor x = ⌊x⌋ := Rat.floor_def.symm

theorem flushRun_sum (cp : Option String) (cr : List URecord) (vs : List Visit)
    (hinv : cp = none → cr = []) :
    ((flushRun cp cr vs).map Visit.n_points).sum =
      (vs.map Visit.n_points).sum + cr.length := by
  cases cp with
  | none => simp [flushRun, hinv rfl]
  | some c =>
    simp only [flushRun]
    cases hcr : cr.isEmpty
    · simp [mkVisit]
    · simp [List.isEmpty_iff.mp hcr]

theorem group_port_visitsGo_sum :
    ∀ (rest : List URecord) (cp : Option String) (cr : List URecord) (vs : List Visit),
      (∀ r ∈ rest, pyTruthy r.port = true) →
      (cp = none → cr = []) →
      ((group_port_visitsGo rest cp cr vs).map Visit.n_points).sum =
        (vs.map Visit.n_points).sum + cr.length + rest.length := by
  intro rest
  induction rest with
  | nil =>
    intro cp cr vs _ hinv
    simpa using flushRun_sum cp cr vs hinv
  | cons r rest ih =>
    intro cp cr vs htr hinv
    have hr : pyTruthy r.port = true := htr r (List.mem_cons_self _ _)
    have htr' : ∀ x ∈ rest, pyTruthy x.port = true :=
      fun x hx => htr x (List.mem_cons_of_mem _ hx)
    have hrsome : r.port ≠ none := by
      intro h
      rw [h] at hr
      exact absurd hr (by simp [pyTruthy])
    simp only [group_port_visitsGo, hr, if_true]
    split
    · rw [ih r.port [r] (flushRun cp cr vs) htr' (fun h => absurd h hrsome),
        flushRun_sum cp cr vs hinv]
      simp only [List.length_cons, List.length_nil]
      omega
    case isFalse heq =>
      have hcp : cp = r.port := by
        by_contra hne
        exact heq (fun h => hne h.symm)
      rw [ih cp (cr ++ [r]) vs htr'
        (fun h => absurd (h ▸ hcp).symm hrsome)]
      simp only [List.length_append, List.length_cons, List.length_nil]
      omega

theorem port_names_nonempty : ∀ p ∈ PORTS, p.name ≠ "" := by decide

/-- C5: on a classified sequence with no absent classifications (every
record carries the name of some port), the visits produced by the scan of
`group_port_visits` — before the dwell filter — have `n_points` summing to
the input length: each run, the trailing one included, is emitted with
point count equal to its run length. -/
theorem group_port_visits_points_conservation (records : List URecord)
    (h : ∀ r ∈ records, ∃ p ∈ PORTS, r.port = some p.name) :
    ((scanVisits records).map Visit.n_points).sum = records.length := by
  have htruthy : ∀ r ∈ records, pyTruthy r.port = true := by
    intro r hr
    obtain ⟨p, hp, hpo⟩ := h r hr
    have hname : p.name ≠ "" := port_names_nonempty p hp
    simp [pyTruthy, hpo, hname]
  simpa using group_port_visitsGo_sum records none [] [] htruthy (fun _ => rfl)

/-- A concrete Hobart record used by the witnesses. -/
def wRecH1 : URecord :=
  { gml_id := "a", datetime := 0, lat := 0, lon := 0, port := some "Hobart" }

/-- A second concrete Hobart record used by the witnesses. -/
def wRecH2 : URecord :=
  { gml_id := "b", datetime := 3600, lat := 0, lon := 0, port := some "Hobart" }

/-- A concrete Casey record used by the witnesses. -/
def wRecC : URecord :=
  { gml_id := "c", datetime := 7200, lat := 0, lon := 0, port := some "Casey" }

/-- Witness for C5 at a concrete input: two runs (Hobart of length 2,
Casey of length 1) whose point counts sum to the input length 3. -/
theorem group_port_visits_points_conservation_applied :
    ((scanVisits [wRecH1, wRecH2, wRecC]).map Visit.n_points).sum = 3 :=
  group_port_visits_points_conservation [wRecH1, wRecH2, wRecC] (by decide)

theorem dwellFilter_mem (vs : List Visit) (v : Visit) :
    v ∈ dwellFilter vs ↔
      ∃ u ∈ vs, MIN_DWELL_HOURS ≤ dwellOf u ∧
        v = { u with dwell_hours := round1 (dwellOf u) } := by
  induction vs with
  | nil => simp [dwellFilter]
  | cons u rest ih =>
    simp only [dwellFilter]
    by_cases h : MIN_DWELL_HOURS ≤ dwellOf u
    · rw [if_pos h]
      simp only [List.mem_cons, ih]
      constructor
      · rintro (rfl | ⟨w, hw, hcond, rfl⟩)
        · exact ⟨u, Or.inl rfl, h, rfl⟩
        · exact ⟨w, Or.inr hw, hcond, rfl⟩
      · rintro ⟨w, hw, hcond, rfl⟩
        rcases hw with rfl | hw2
        · exact Or.inl rfl
        · exact Or.inr ⟨w, hw2, hcond, rfl⟩
    · rw [if_neg h, ih]
      constructor
      · rintro ⟨w, hw, hcond, rfl⟩
        exact ⟨w, List.mem_cons_of_mem _ hw, hcond, rfl⟩
      · rintro ⟨w, hw, hcond, rfl⟩
        rcases List.mem_cons.mp hw with rfl | hw2
        · exact absurd hcond h
        · exact ⟨w, hw2, hcond, rfl⟩

/-- C6 (amended): a visit from the run scan survives the dwell filter
exactly when its dwell `(depart - arrive)/3600` is at least
`MIN_DWELL_HOURS` (= 2), and each retained visit is annotated with its
dwell *rounded to one decimal place* (Python `round(dwell, 1)`), not with
the raw dwell value. -/
theorem group_port_visits_dwell_membership (records : List URecord) (v : Visit) :
    v ∈ group_port_visits records ↔
      ∃ u ∈ scanVisits records, MIN_DWELL_HOURS ≤ dwellOf u ∧
        v = { u with dwell_hours := round1 (dwellOf u) } :=
  dwellFilter_mem (scanVisits records) v

/-- A Casey record at t = 0. -/
def wRecC1 : URecord :=
  { gml_id := "p", datetime := 0, lat := 0, lon := 0, port := some "Casey" }

/-- A Casey record at t = 7380 s (2.05 h later). -/
def wRecC2 : URecord :=
  { gml_id := "q", datetime := 7380, lat := 0, lon := 0, port := some "Casey" }

/-- Counterexample to C6 as stated: a 2.05-hour Casey visit is retained,
but its `dwell_hours` annotation is `round(2.05, 1) = 2.0`, not the
computed dwell `(depart - arrive)/3600 = 41/20`. -/
theorem group_port_visits_rounds_annotation :
    (group_port_visits [wRecC1, wRecC2]).map Visit.dwell_hours = [2] ∧
    (scanVisits [wRecC1, wRecC2]).map dwellOf = [41/20] ∧ (41 : ℚ)/20 ≠ 2 := by
  have hscan : scanVisits [wRecC1, wRecC2] = [mkVisit "Casey" [wRecC1, wRecC2]] := by decide
  have hd : dwellOf (mkVisit "Casey" [wRecC1, wRecC2]) = 41/20 := by
    norm_num [dwellOf, mkVisit, wRecC1, wRecC2]
  refine ⟨?_, by simp [hscan, hd], by norm_num⟩
  show (dwellFilter (scanVisits [wRecC1, wRecC2])).map Visit.dwell_hours = [2]
  rw [hscan]
  simp only [dwellFilter, hd]
  rw [if_pos (by norm_num [MIN_DWELL_HOURS])]
  have hfloor : ⌊(10 * ((41 : ℚ)/20))⌋ = 20 := by
    rw [Int.floor_eq_iff]
    norm_num
  have hr : round1 ((41 : ℚ)/20) = 2 := by
    simp only [round1, rne, ratFloor_eq, hfloor]
    norm_num
  simp [hr]

/-- A classified record sequence with non-monotonic timestamps
(t = 10000 followed by t = 0, both at Hobart). -/
def badRecords : List URecord :=
  [ { gml_id := "x1", datetime := 10000, lat := 0, lon := 0, port := some "Hobart" },
    { gml_id := "x2", datetime := 0, lat := 0, lon := 0, port := some "Hobart" } ]

/-- C8 (what the code actually does): `group_port_visits` performs no
ordering check and raises nothing on non-monotonic input; it silently
builds a run whose departure (t = 0) precedes its arrival (t = 10000) —
the dwell comes out negative and the visit is quietly dropped, so the
whole call returns `[]` normally instead of failing fast. -/
theorem group_port_visits_no_ordering_error :
    (scanVisits badRecords).map (fun v => (v.arrive, v.depart)) = [(10000, 0)] ∧
    group_port_visits badRecords = [] := by
  have hscan : scanVisits badRecords = [mkVisit "Hobart" badRecords] := by decide
  constructor
  · decide
  · show dwellFilter (scanVisits badRecords) = []
    rw [hscan]
    simp only [dwellFilter]
    rw [if_neg (by norm_num [MIN_DWELL_HOURS, dwellOf, mkVisit, badRecords])]

/-! ## Dataset synchronizer: theorems -/

theorem max?_pos_length {r : Data} {m : ℤ} (hmax : r.max? = some m) : 0 < r.length := by
  cases r with
  | nil => simp [List.max?] at hmax
  | cons a l => simp

/-- C10: whenever the remote release snapshot is readable and non-empty,
the live dataset file is overwritten in place with it as the very first
mutation — before any backup exists and regardless of the previous local
copy — and a subsequent successful merge unions the snapshot (not the
prior local file) with the strictly-newer WFS records. -/
theorem update_parquet_release_overwrite_first
    (fs0 : FS) (r w : Data) (m : ℤ) (mr : Bool)
    (hmax : r.max? = some m) :
    (update_parquet (some r) (some w) mr fs0).2.2.get? 1 =
        some { fs0 with live := some r } ∧
    (mr = false → w.filter (fun t => decide (m < t)) ≠ [] →
      (update_parquet (some r) (some w) mr fs0).1 = true ∧
      (update_parquet (some r) (some w) mr fs0).2.1.live =
        some (r ++ w.filter (fun t => decide (m < t)))) := by
  have hr : 0 < r.length := max?_pos_length hmax
  by_cases hf : w.filter (fun t => decide (m < t)) = []
  · constructor
    · simp [update_parquet, download_existing, get_max_datetime, fetch_from_wfs,
        hr, hmax, hf]
    · intro _ hne
      exact absurd hf hne
  · have hlen : ¬(w.filter (fun t => decide (m < t))).length = 0 := by
      simpa [List.length_eq_zero] using hf
    cases mr with
    | true =>
      constructor
      · simp [update_parquet, download_existing, get_max_datetime, fetch_from_wfs,
          merge_step, hr, hmax, hlen]
      · intro h; exact absurd h (by simp)
    | false =>
      have hml : 0 < (r ++ w.filter (fun t => decide (m < t))).length := by
        simp only [List.length_append]
        omega
      constructor
      · simp [update_parquet, download_existing, get_max_datetime, fetch_from_wfs,
          merge_step, hr, hmax, hlen, hml]
      · intro _ _
        constructor
        · simp [update_parquet, download_existing, get_max_datetime, fetch_from_wfs,
            merge_step, hr, hmax, hlen, hml]
        · simp [update_parquet, download_existing, get_max_datetime, fetch_from_wfs,
            merge_step, cleanupFS, hr, hmax, hlen, hml]

/-- Witness for C10 at a concrete input: pre-sync live file `[1]` and a
stale backup `[7]`; right after the download the live file is the release
snapshot `[5]` while the backup is untouched. -/
theorem update_parquet_release_overwrite_first_applied :
    (update_parquet (some [(5 : ℤ)]) (some [9]) false
        { live := some [1], backup := some [7], temp := none }).2.2.get? 1 =
      some { live := some [(5 : ℤ)], backup := some [7], temp := none } :=
  (update_parquet_release_overwrite_first
    { live := some [1], backup := some [7], temp := none } [5] [9] 5 false (by decide)).1

/-- Counterexample to C3 as stated: pre-sync live dataset `[1]`, release
snapshot `[5]`, one new WFS record, merge raises.  The sync reports
failure but leaves the live dataset equal to the snapshot `[5]`, not to
its pre-sync state `[1]`. -/
theorem update_parquet_rollback_not_presync :
    (update_parquet (some [(5 : ℤ)]) (some [9]) true
        { live := some [1], backup := none, temp := none }).1 = false ∧
    (update_parquet (some [(5 : ℤ)]) (some [9]) true
        { live := some [1], backup := none, temp := none }).2.1.live = some [5] ∧
    (some [(5 : ℤ)] : Option Data) ≠ some [1] := by decide

/-- C3 (amended): if the merge step raises (or its validation fails), the
sync restores the backup and reports failure, leaving the persisted
dataset identical to its **pre-merge** state — the release snapshot
installed at the start of the sync, which equals the pre-sync state only
when that state already matched the snapshot; and from the moment the
snapshot is installed, the live dataset at every observable point is
either the snapshot or the fully-merged dataset, never a partial write. -/
theorem update_parquet_rollback_pre_merge
    (fs0 : FS) (r w : Data) (m : ℤ)
    (hmax : r.max? = some m)
    (hnew : w.filter (fun t => decide (m < t)) ≠ []) :
    (update_parquet (some r) (some w) true fs0).1 = false ∧
    (update_parquet (some r) (some w) true fs0).2.1.live = some r ∧
    (∀ fs ∈ (update_parquet (some r) (some w) true fs0).2.2.drop 1, fs.live = some r) ∧
    ∀ (mr : Bool), ∀ fs ∈ (update_parquet (some r) (some w) mr fs0).2.2.drop 1,
      fs.live = some r ∨ fs.live = some (r ++ w.filter (fun t => decide (m < t))) := by
  have hr : 0 < r.length := max?_pos_length hmax
  have hlen : ¬(w.filter (fun t => decide (m < t))).length = 0 := by
    simpa [List.length_eq_zero] using hnew
  have hml : 0 < (r ++ w.filter (fun t => decide (m < t))).length := by
    simp only [List.length_append]
    omega
  refine ⟨?_, ?_, ?_, ?_⟩
  · simp [update_parquet, download_existing, get_max_datetime, fetch_from_wfs,
      merge_step, hr, hmax, hlen]
  · simp [update_parquet, download_existing, get_max_datetime, fetch_from_wfs,
      merge_step, restore_backup, cleanupFS, hr, hmax, hlen]
  · simp [update_parquet, download_existing, get_max_datetime, fetch_from_wfs,
      merge_step, restore_backup, cleanupFS, hr, hmax, hlen]
  · intro mr
    cases mr with
    | true =>
      simp [update_parquet, download_existing, get_max_datetime, fetch_from_wfs,
        merge_step, restore_backup, cleanupFS, hr, hmax, hlen]
    | false =>
      simp [update_parquet, download_existing, get_max_datetime, fetch_from_wfs,
        merge_step, restore_backup, cleanupFS, hr, hmax, hlen, hml]

/-- Witness for C3 (amended) at a concrete input. -/
theorem update_parquet_rollback_pre_merge_applied :
    (update_parquet (some [(5 : ℤ)]) (some [9]) true
        { live := some [1], backup := none, temp := none }).2.1.live = some [5] :=
  (update_parquet_rollback_pre_merge
    { live := some [1], backup := none, temp := none } [5] [9] 5
    (by decide) (by decide)).2.1

/-- Counterexample to C4 as stated: pre-sync live dataset `[1]`, release
snapshot `[5]`, zero strictly-newer WFS records.  The sync succeeds, yet
the persisted dataset has been rewritten to the snapshot `[5]` — it is
not byte-identical to the pre-sync state `[1]`. -/
theorem update_parquet_zero_new_mutates :
    (update_parquet (some [(5 : ℤ)]) (some []) false
        { live := some [1], backup := none, temp := none }).1 = true ∧
    (update_parquet (some [(5 : ℤ)]) (some []) false
        { live := some [1], backup := none, temp := none }).2.1.live = some [5] ∧
    (some [(5 : ℤ)] : Option Data) ≠ some [1] := by decide

/-- C4 (amended): with a readable non-empty release snapshot and zero
strictly-newer remote records, the sync declares success and performs no
mutation **after** the unconditional installation of the snapshot: the
persisted dataset ends equal to the snapshot at every observable point
from then on, and it equals the pre-sync state exactly when the pre-sync
local copy already equalled the snapshot. -/
theorem update_parquet_zero_new_success
    (fs0 : FS) (r w : Data) (m : ℤ) (mr : Bool)
    (hmax : r.max? = some m)
    (hnone : w.filter (fun t => decide (m < t)) = []) :
    (update_parquet (some r) (some w) mr fs0).1 = true ∧
    (update_parquet (some r) (some w) mr fs0).2.1.live = some r ∧
    (fs0.live = some r → (update_parquet (some r) (some w) mr fs0).2.1.live = fs0.live) ∧
    ∀ fs ∈ (update_parquet (some r) (some w) mr fs0).2.2.drop 1, fs.live = some r := by
  have hr : 0 < r.length := max?_pos_length hmax
  refine ⟨?_, ?_, ?_, ?_⟩
  · simp [update_parquet, download_existing, get_max_datetime, fetch_from_wfs,
      hr, hmax, hnone]
  · simp [update_parquet, download_existing, get_max_datetime, fetch_from_wfs,
      cleanupFS, hr, hmax, hnone]
  · intro h
    rw [h]
    simp [update_parquet, download_existing, get_max_datetime, fetch_from_wfs,
      cleanupFS, hr, hmax, hnone]
  · simp [update_parquet, download_existing, get_max_datetime, fetch_from_wfs,
      cleanupFS, hr, hmax, hnone]

/-- Witness for C4 (amended) at a concrete input where the pre-sync copy
already equals the snapshot. -/
theorem update_parquet_zero_new_success_applied :
    (update_parquet (some [(5 : ℤ)]) (some [3]) false
        { live := some [5], backup := none, temp := none }).1 = true :=
  (update_parquet_zero_new_success
    { live := some [5], backup := none, temp := none } [5] [3] 5 false
    (by decide) (by decide)).1
